import Mathlib

/-!
Shallow embedding of the core of the `agentic-ai` repository:

* the backend health state machine of
  `src/backend/core/llm_manager_fixed.py` (`LLMProvider.mark_error`,
  `LLMProvider.reset_errors`, `LLMProvider.can_retry`, the offline responder
  `LocalLLMProvider.generate`, and the retry/fallback loop
  `LLMManager.generate`);
* the priority-grouped scheduler of `src/backend/agents/orchestrator.py`
  (`OrchestratorAgent.execute_plan`, `OrchestratorAgent.execute_task`);
* plan validation of `src/backend/agents/planner.py`
  (`PlannerAgent._validate_plan`).

Wall-clock instants (Python `time.time()` floats) are modelled as rationals.
Python truthiness of an optional timestamp (`if self.last_error_time and ...`)
is `False` both for `None` and for the float `0.0`; `truthyQ` models this
exactly.
-/

namespace AgenticAI

/-- Truthiness of an optional timestamp, as Python evaluates it:
`None` and `0.0` are falsy, every other value is truthy. -/
def truthyQ : Option ℚ → Bool
  | none => false
  | some x => decide (x ≠ 0)

/-- Mutable health state of one backend, the fields of
`LLMProvider.__init__` in `src/backend/core/llm_manager_fixed.py`
(lines 15-25). -/
structure ProviderState where
  available : Bool
  error_count : ℕ
  max_errors : ℕ
  last_error_time : Option ℚ
  cooldown_period : ℚ
  consecutive_failures : ℕ
  rate_limited : Bool
  rate_limit_reset_time : Option ℚ
deriving DecidableEq

/-- The state a provider is constructed with (`LLMProvider.__init__`):
available, zero errors, `max_errors = 2`, `cooldown_period = 180` seconds. -/
def initProvider : ProviderState :=
  { available := true
    error_count := 0
    max_errors := 2
    last_error_time := none
    cooldown_period := 180
    consecutive_failures := 0
    rate_limited := false
    rate_limit_reset_time := none }

/-- The three classified failure kinds passed to `mark_error`
(`"general"`, `"rate_limit"`, `"auth"`). -/
inductive ErrKind where
  | general
  | rate_limit
  | auth
deriving DecidableEq

/-- `LLMProvider.mark_error(error_type)` (lines 32-51): increment both
counters and stamp `last_error_time`; a rate-limit failure additionally sets
the rate-limit flag with a 60-second reset time; an auth failure disables the
provider and forces `error_count` to `max_errors`; finally, if
`error_count >= max_errors`, the provider is disabled. -/
def mark_error (now : ℚ) (k : ErrKind) (p : ProviderState) : ProviderState :=
  let p1 : ProviderState :=
    { p with
      error_count := p.error_count + 1
      consecutive_failures := p.consecutive_failures + 1
      last_error_time := some now }
  let p2 : ProviderState :=
    match k with
    | .rate_limit =>
        { p1 with rate_limited := true, rate_limit_reset_time := some (now + 60) }
    | .auth =>
        { p1 with available := false, error_count := p1.max_errors }
    | .general => p1
  if p2.max_errors ≤ p2.error_count then { p2 with available := false } else p2

/-- `LLMProvider.reset_errors()` (lines 53-60). -/
def reset_errors (p : ProviderState) : ProviderState :=
  { p with
    error_count := 0
    consecutive_failures := 0
    available := true
    last_error_time := none
    rate_limited := false
    rate_limit_reset_time := none }

/-- The tail of `LLMProvider.can_retry` after the rate-limit check
(lines 74-82): available providers succeed immediately; otherwise a truthy
`last_error_time` older than `cooldown_period` resets the error state and
succeeds; otherwise fail. Returns the decision together with the possibly
mutated state (the Python method mutates `self`). -/
def canRetryRest (now : ℚ) (p : ProviderState) : Bool × ProviderState :=
  if p.available then (true, p)
  else
    match p.last_error_time with
    | some lt =>
        if lt ≠ 0 ∧ p.cooldown_period < now - lt then (true, reset_errors p)
        else (false, p)
    | none => (false, p)

/-- `LLMProvider.can_retry()` (lines 62-82): the rate-limit window is checked
first (with Python truthiness of `rate_limit_reset_time`); an open window
fails immediately, an expired one clears the rate-limit flags before the
general availability/cooldown checks. -/
def can_retry (now : ℚ) (p : ProviderState) : Bool × ProviderState :=
  match p.rate_limit_reset_time with
  | some rt =>
      if p.rate_limited ∧ rt ≠ 0 then
        if now < rt then (false, p)
        else canRetryRest now { p with rate_limited := false, rate_limit_reset_time := none }
      else canRetryRest now p
  | none => canRetryRest now p

/-- The boolean a caller of `can_retry` observes (the spec's `CanUse()`). -/
def canUse (now : ℚ) (p : ProviderState) : Bool :=
  (can_retry now p).1

/-- Iterated `mark_error` with one failure kind at the given instants,
earliest first (`List.foldl`). -/
def afterFailures (k : ErrKind) (ts : List ℚ) (p : ProviderState) : ProviderState :=
  ts.foldl (fun q t => mark_error t k q) p

/-- A provider in the spec's healthy state: available, no accumulated
errors, not rate limited. -/
def Healthy (p : ProviderState) : Prop :=
  p.available = true ∧ p.error_count = 0 ∧ p.rate_limited = false

/-!
Scheduler of `src/backend/agents/orchestrator.py`.

A plan is the list of step dictionaries `execute_plan` consumes; only the
keys that method reads (`id`, `agent`, `priority`) are modelled, each
optional exactly as `dict.get` sees it.  A handler invocation
(`agent.process` under `asyncio.wait_for`) is abstracted by a behaviour
function `beh : PlanStep → Outcome` giving, per task, the outcome of its one
invocation: a successful `AgentResponse` with data, a failed `AgentResponse`
carrying an error string, a raised exception (caught by
`asyncio.gather(..., return_exceptions=True)`), or a timeout.
-/

/-- One raw plan step, the dictionary keys read by
`OrchestratorAgent.execute_plan`. -/
structure PlanStep where
  id : Option String
  agent : Option String
  priority : Option Int
deriving DecidableEq

/-- `step.get('priority', 1)` (orchestrator.py line 100). -/
def priorityOf (s : PlanStep) : Int := s.priority.getD 1

/-- `task.get('agent')` followed by `agent_name in self.agents`
(lines 112-113): an absent or unregistered agent name is not scheduled. -/
def registered (agents : List String) (s : PlanStep) : Bool :=
  match s.agent with
  | some a => agents.contains a
  | none => false

/-- Outcome of one handler invocation under its timeout. -/
inductive Outcome where
  | ok (data : String)
  | fail (err : String)
  | raiseExc (err : String)
  | timeout
deriving DecidableEq

/-- A task's recorded result: the success payload, or an error descriptor
(`{"error": ...}`). -/
inductive TResult where
  | ok (data : String)
  | err (msg : String)
deriving DecidableEq

/-- `OrchestratorAgent.execute_task` (lines 131-151) combined with the
`isinstance(result, Exception)` branch of `execute_plan` (lines 124-127):
a success returns `response.data`; a failed response yields
`{"error": response.error}`; a raised exception is materialised by
`asyncio.gather` into `{"error": str(result)}`; a timeout yields the timeout
message built from `timeout_seconds`. -/
def execute_task (ts : ℕ) (o : Outcome) : TResult :=
  match o with
  | .ok d => .ok d
  | .fail e => .err e
  | .raiseExc e => .err e
  | .timeout => .err ("Task timed out after " ++ toString ts ++ " seconds")

/-- The ascending sorted list of distinct priorities,
`sorted(priority_groups.keys())` (line 106). -/
def planPriorities (plan : List PlanStep) : List Int :=
  ((plan.map priorityOf).dedup).insertionSort (· ≤ ·)

/-- The priority groups in execution order: for each distinct priority in
ascending order, the plan's steps with that priority in plan order (the dict
`priority_groups` of lines 98-103 iterated at line 106). -/
def planGroups (plan : List PlanStep) : List (List PlanStep) :=
  (planPriorities plan).map (fun q => plan.filter (fun s => priorityOf s == q))

/-- `tasks[i].get('id', f'task_{i}')` (line 123). -/
def stepId (i : ℕ) (s : PlanStep) : String := s.id.getD ("task_" ++ toString i)

/-- Result entries recorded for one priority group (lines 110-127): the
coroutine list is built only from registered steps, but the result of the
`i`-th coroutine is keyed by the id of the group's `i`-th step — filtered and
unfiltered lists are aligned positionally, exactly as the source's
`enumerate(task_results)` loop does. -/
def execGroup (beh : PlanStep → Outcome) (ts : ℕ) (agents : List String)
    (g : List PlanStep) : List (String × TResult) :=
  List.zipWith (fun sF p => (stepId p.1 p.2, execute_task ts (beh sF)))
    (g.filter (registered agents)) g.enum

/-- Assignment `results[task_id] = ...` on a Python dict modelled as an
association list: overwrite the existing key or append. -/
def updateA (m : List (String × TResult)) (k : String) (v : TResult) :
    List (String × TResult) :=
  if m.any (fun kv => kv.1 == k) then
    m.map (fun kv => if kv.1 == k then (k, v) else kv)
  else m ++ [(k, v)]

/-- `OrchestratorAgent.execute_plan` (lines 93-129): fold the priority groups
in ascending order, recording each group's results into the shared result
dict. -/
def execute_plan (beh : PlanStep → Outcome) (ts : ℕ) (agents : List String)
    (plan : List PlanStep) : List (String × TResult) :=
  (planGroups plan).foldl
    (fun acc g => (execGroup beh ts agents g).foldl (fun a kv => updateA a kv.1 kv.2) acc) []

/-!
Trace model of `execute_plan` for the temporal ordering claim.  One group
iteration launches its registered tasks concurrently (`asyncio.gather`) and,
after they have all finished, records their results; only then does the loop
move to the next priority group.  The unconstrained interleaving of the
concurrent launches is modelled by a launch-order parameter
`σ : List PlanStep → List PlanStep`, quantified over all permutations. -/

/-- Observable scheduler events: a task's coroutine starts; a task's result
is recorded into the result dict.  Start events carry
`task.get('id', 'task')`, the message id of `execute_task` (line 136);
record events carry the key of line 123. -/
inductive Ev where
  | start (id : String)
  | record (id : String)
deriving DecidableEq

/-- Events of one priority-group iteration: the registered tasks start in the
launch order chosen by `σ`, then every result is recorded (an empty coroutine
list skips the gather and the record loop, line 118). -/
def groupTrace (σ : List PlanStep → List PlanStep) (agents : List String)
    (g : List PlanStep) : List Ev :=
  (σ (g.filter (registered agents))).map (fun s => Ev.start (s.id.getD "task")) ++
    List.zipWith (fun _ p => Ev.record (stepId p.1 p.2))
      (g.filter (registered agents)) g.enum

/-- The full event trace of `execute_plan`: group blocks in ascending
priority order. -/
def executeTrace (σ : List PlanStep → List PlanStep) (agents : List String)
    (plan : List PlanStep) : List Ev :=
  ((planGroups plan).map (groupTrace σ agents)).flatten

/-!
Plan validation of `src/backend/agents/planner.py`
(`PlannerAgent._validate_plan`, lines 129-151).
-/

/-- One raw plan step as `_validate_plan` receives it: every key the method
reads with `dict.get`, each possibly absent. -/
structure RawStep where
  id : Option String
  agent : Option String
  task : Option String
  priority : Option Int
  dependencies : Option (List String)
  inputs : Option (List String)
  outputs : Option (List String)
deriving DecidableEq

/-- A validated plan step: every field filled in. -/
structure VStep where
  id : String
  agent : String
  task : String
  priority : Int
  dependencies : List String
  inputs : List String
  outputs : List String
deriving DecidableEq

/-- `valid_agents` of planner.py line 145. -/
def valid_agents : List String :=
  ["researcher", "file_picker", "coder", "reviewer", "thinker"]

/-- The body of `_validate_plan`'s loop for the step at index `i`: default
every missing field (`id` → `step_i`, `agent` → `coder`, `task` → a fixed
string, `priority` → `i + 1`, list fields → `[]`) and replace an agent name
outside `valid_agents` by `coder`. -/
def validate_step (i : ℕ) (s : RawStep) : VStep :=
  let a := s.agent.getD "coder"
  { id := s.id.getD ("step_" ++ toString i)
    agent := if valid_agents.contains a then a else "coder"
    task := s.task.getD "Complete the task"
    priority := s.priority.getD (Int.ofNat i + 1)
    dependencies := s.dependencies.getD []
    inputs := s.inputs.getD []
    outputs := s.outputs.getD [] }

/-- `PlannerAgent._validate_plan`: validate every step with its index; no
step is ever rejected. -/
def validate_plan (plan : List RawStep) : List VStep :=
  plan.enum.map (fun p => validate_step p.1 p.2)

/-!
Generation router of `src/backend/core/llm_manager_fixed.py`
(`LLMManager.generate`, lines 427-477, and the offline responder
`LocalLLMProvider.generate`, lines 385-404).

A provider is its name, its health state and an abstract behaviour
`gen attempt prompt system_prompt` giving the outcome of the provider's
`generate` coroutine on the given attempt: the returned text, or the raised
exception's message.  The `mark_error` calls the loop makes on failures
(lines 455-463) mutate only provider health state, which the loop never
re-reads (the candidate snapshot of line 430 is fixed and `can_retry` is not
re-evaluated), so they do not affect the returned value and are not threaded
here.
-/

/-- Character-list prefix test (`l` leads `m`). -/
def leadsWith : List Char → List Char → Bool
  | [], _ => true
  | _ :: _, [] => false
  | a :: as, b :: bs => a == b && leadsWith as bs

/-- Occurrence of `sub` as a contiguous run inside `hay`. -/
def occursIn (sub : List Char) : List Char → Bool
  | [] => leadsWith sub []
  | b :: bs => leadsWith sub (b :: bs) || occursIn sub bs

/-- Substring containment, Python's `needle in haystack`. -/
def containsSub (hay sub : String) : Bool :=
  occursIn sub.toList hay.toList

/-- `LocalLLMProvider.generate` (lines 385-404): a pure rule-based responder
keyed on the lower-cased prompt; the fallback answer embeds the prompt's
first 100 characters. -/
def localGenerate (prompt : String) : String :=
  let pl := prompt.toLower
  if ["hello", "hi", "hey"].any (fun w => containsSub pl w) then
    "Hello! I\x27m currently running in offline mode. My responses are limited, but I\x27m here to help with basic queries."
  else if ["code", "python", "function"].any (fun w => containsSub pl w) then
    "I\x27d love to help with coding, but I\x27m currently in offline mode with limited capabilities. Please check your internet connection or API keys."
  else if ["error", "problem", "issue"].any (fun w => containsSub pl w) then
    "I understand you\x27re experiencing an issue. In offline mode, I recommend checking your network connection and API configuration."
  else
    "I received your message: \x27" ++ prompt.take 100 ++ "...\x27 but I\x27m currently in offline mode with limited capabilities. Please check your internet connection or API keys for full functionality."

/-- One provider as `LLMManager.generate` sees it. -/
structure MProvider where
  name : String
  st : ProviderState
  gen : ℕ → String → Option String → Except String String

/-- The `LocalLLMProvider()` instances the manager constructs as a last
resort (lines 434 and 468): named `local`, always available, and its
`generate` never fails. -/
def localProvider : MProvider :=
  { name := "local"
    st := initProvider
    gen := fun _ prompt _ => .ok (localGenerate prompt) }

/-- The retry loop of `LLMManager.generate` (lines 440-477): round-robin over
the candidate snapshot; a success returns immediately; on the last failed
attempt a non-local provider falls back to a fresh `LocalLLMProvider` (whose
`generate` always succeeds); an exhausted loop raises
`All providers failed`.  The `none` arm of the list indexing is unreachable
for a non-empty candidate list. -/
def genLoop (cands : List MProvider) (prompt : String) (sys : Option String)
    (maxr : ℕ) (lastErr : String) (attempt : ℕ) : Except String String :=
  if _h : maxr ≤ attempt then .error ("All providers failed. Last error: " ++ lastErr)
  else
    match cands.get? (attempt % cands.length) with
    | none => .error ("All providers failed. Last error: " ++ lastErr)
    | some p =>
        match p.gen attempt prompt sys with
        | .ok text => .ok text
        | .error e =>
            if attempt = maxr - 1 ∧ p.name ≠ "local" then .ok (localGenerate prompt)
            else genLoop cands prompt sys maxr e (attempt + 1)
termination_by maxr - attempt
decreasing_by simp_wf; omega

/-- `LLMManager.generate` (lines 427-477): snapshot the providers whose
`can_retry()` holds now; if none, substitute a fresh local provider;
`max_retries or len(available_providers)` (`0` is falsy in Python); then run
the retry loop.  A raised exception is an `Except.error` result. -/
def managerGenerate (providers : List MProvider) (prompt : String)
    (sys : Option String) (max_retries : Option ℕ) (now : ℚ) :
    Except String String :=
  let avail := providers.filter (fun p => canUse now p.st)
  let cands := if avail.isEmpty then [localProvider] else avail
  let maxr :=
    match max_retries with
    | some n => if n = 0 then cands.length else n
    | none => cands.length
  genLoop cands prompt sys maxr "None" 0

/-!
Concrete plans used by the scenario claims, after the spec's end-to-end
example: `echo` is the one registered handler and each behaviour function
fixes every handler invocation's outcome.
-/

/-- A behaviour where every invoked handler succeeds. -/
def behEcho : PlanStep → Outcome := fun s => Outcome.ok ("done " ++ s.id.getD "task")

/-- A behaviour where the handler of the task with id `f` raises and every
other invocation succeeds. -/
def behBoom : PlanStep → Outcome :=
  fun s => if s.id = some "f" then Outcome.raiseExc "boom" else Outcome.ok "x"

/-- Task `a`, priority 1, registered handler. -/
def stepEchoA : PlanStep := { id := some "a", agent := some "echo", priority := some 1 }

/-- Task `b`, priority 1, unregistered handler `missing`. -/
def stepMissingB : PlanStep := { id := some "b", agent := some "missing", priority := some 1 }

/-- Task `b`, priority 1, registered handler. -/
def stepEchoB : PlanStep := { id := some "b", agent := some "echo", priority := some 1 }

/-- Task `c`, priority 2, registered handler. -/
def stepEchoC : PlanStep := { id := some "c", agent := some "echo", priority := some 2 }

/-- Task `x`, priority 1, unregistered handler. -/
def stepMissingX : PlanStep := { id := some "x", agent := some "missing", priority := some 1 }

/-- Task `y`, priority 2, registered handler. -/
def stepEchoY : PlanStep := { id := some "y", agent := some "echo", priority := some 2 }

/-- Task `m`, priority 1, unregistered handler. -/
def stepMissingM : PlanStep := { id := some "m", agent := some "missing", priority := some 1 }

/-- Task `f`, priority 1, registered handler (the failing task of the C7
counterexample). -/
def stepEchoF : PlanStep := { id := some "f", agent := some "echo", priority := some 1 }

/-- The behaviour `behBoom` with the task `f`'s outcome replaced by a
success: the comparison run "had the failing task succeeded". -/
def behBoomFixed : PlanStep → Outcome :=
  fun s => if s.id = some "f" then Outcome.ok "fixed" else behBoom s

/-- A raw planner step supplying an explicit priority `0` (below the claimed
invariant) and id `a`. -/
def rawPriorityZero : RawStep :=
  { id := some "a", agent := none, task := none, priority := some 0,
    dependencies := none, inputs := none, outputs := none }

/-- A raw planner step reusing the id `a` and missing its priority. -/
def rawDupId : RawStep :=
  { id := some "a", agent := none, task := none, priority := none,
    dependencies := none, inputs := none, outputs := none }

/-- A raw planner step with every field missing. -/
def rawEmpty : RawStep :=
  { id := none, agent := none, task := none, priority := none,
    dependencies := none, inputs := none, outputs := none }

lemma mark_error_consecutive (now : ℚ) (k : ErrKind) (q : ProviderState) :
    (mark_error now k q).consecutive_failures = q.consecutive_failures + 1 := by
  cases k <;> simp only [mark_error] <;> split <;> rfl

lemma mark_error_last (now : ℚ) (k : ErrKind) (q : ProviderState) :
    (mark_error now k q).last_error_time = some now := by
  cases k <;> simp only [mark_error] <;> split <;> rfl

lemma mark_error_max (now : ℚ) (k : ErrKind) (q : ProviderState) :
    (mark_error now k q).max_errors = q.max_errors := by
  cases k <;> simp only [mark_error] <;> split <;> rfl

lemma mark_error_cooldown (now : ℚ) (k : ErrKind) (q : ProviderState) :
    (mark_error now k q).cooldown_period = q.cooldown_period := by
  cases k <;> simp only [mark_error] <;> split <;> rfl

lemma mark_error_count_nonauth (now : ℚ) (k : ErrKind) (hk : k ≠ .auth)
    (q : ProviderState) :
    (mark_error now k q).error_count = q.error_count + 1 := by
  cases k
  · simp only [mark_error]; split <;> rfl
  · simp only [mark_error]; split <;> rfl
  · exact absurd rfl hk

lemma mark_error_available_of_reached (now : ℚ) (k : ErrKind) (q : ProviderState)
    (h : q.max_errors ≤ q.error_count + 1) :
    (mark_error now k q).available = false := by
  cases k
  · simp only [mark_error]
    rw [if_pos h]
  · simp only [mark_error]
    rw [if_pos h]
  · simp only [mark_error]
    rw [if_pos (le_refl _)]

lemma mark_error_general_rate_fields (now : ℚ) (q : ProviderState) :
    (mark_error now .general q).rate_limited = q.rate_limited ∧
      (mark_error now .general q).rate_limit_reset_time = q.rate_limit_reset_time := by
  simp only [mark_error]
  split <;> exact ⟨rfl, rfl⟩

lemma afterFailures_append (k : ErrKind) (ts : List ℚ) (t : ℚ) (p : ProviderState) :
    afterFailures k (ts ++ [t]) p = mark_error t k (afterFailures k ts p) := by
  simp [afterFailures, List.foldl_append]

lemma afterFailures_count (k : ErrKind) (hk : k ≠ .auth) (ts : List ℚ) :
    ∀ p : ProviderState,
      (afterFailures k ts p).error_count = p.error_count + ts.length := by
  induction ts with
  | nil => intro p; simp [afterFailures]
  | cons t ts ih =>
      intro p
      have : afterFailures k (t :: ts) p = afterFailures k ts (mark_error t k p) := rfl
      rw [this, ih, mark_error_count_nonauth t k hk]
      simp
      omega

lemma afterFailures_max (k : ErrKind) (ts : List ℚ) :
    ∀ p : ProviderState, (afterFailures k ts p).max_errors = p.max_errors := by
  induction ts with
  | nil => intro p; rfl
  | cons t ts ih =>
      intro p
      have : afterFailures k (t :: ts) p = afterFailures k ts (mark_error t k p) := rfl
      rw [this, ih, mark_error_max]

lemma afterFailures_cooldown (k : ErrKind) (ts : List ℚ) :
    ∀ p : ProviderState, (afterFailures k ts p).cooldown_period = p.cooldown_period := by
  induction ts with
  | nil => intro p; rfl
  | cons t ts ih =>
      intro p
      have : afterFailures k (t :: ts) p = afterFailures k ts (mark_error t k p) := rfl
      rw [this, ih, mark_error_cooldown]

lemma afterFailures_general_rate (ts : List ℚ) :
    ∀ p : ProviderState,
      (afterFailures .general ts p).rate_limited = p.rate_limited := by
  induction ts with
  | nil => intro p; rfl
  | cons t ts ih =>
      intro p
      have : afterFailures .general (t :: ts) p
          = afterFailures .general ts (mark_error t .general p) := rfl
      rw [this, ih, (mark_error_general_rate_fields t p).1]

/-- Evaluation of `can_retry` on a disabled, not-rate-limited provider with a
stamped last-error time: the outcome is decided purely by the cooldown test. -/
lemma canUse_disabled (q : ProviderState) (hav : q.available = false)
    (hrl : q.rate_limited = false) (lt t : ℚ) (hlast : q.last_error_time = some lt) :
    canUse t q = decide (lt ≠ 0 ∧ q.cooldown_period < t - lt) := by
  unfold canUse can_retry canRetryRest
  cases hrt : q.rate_limit_reset_time with
  | none =>
      simp only [hav, hlast, hrl]
      split
      · simp_all
      · split <;> simp_all
  | some rt =>
      simp only [hav, hlast, hrl, false_and, if_neg (by simp : ¬(False ∧ rt ≠ 0))]
      split
      · simp_all
      · split
        · simp_all
        · split <;> simp_all

lemma mark_error_auth_available (now : ℚ) (q : ProviderState) :
    (mark_error now .auth q).available = false := by
  simp only [mark_error]
  rw [if_pos (le_refl _)]

lemma mark_error_auth_rate_fields (now : ℚ) (q : ProviderState) :
    (mark_error now .auth q).rate_limited = q.rate_limited ∧
      (mark_error now .auth q).rate_limit_reset_time = q.rate_limit_reset_time := by
  simp only [mark_error]
  split <;> exact ⟨rfl, rfl⟩

/-- C5: starting from a healthy provider, after exactly `max_errors`
consecutive generic failures (the last one at wall-clock instant `tl > 0`),
`can_retry` is false at every instant within `cooldown_period` of the last
failure and true at every instant strictly after the cooldown has elapsed,
with no other intervention. -/
theorem generic_failures_cooldown_recovery
    (p : ProviderState) (hp : Healthy p) (ts : List ℚ) (tl : ℚ) (htl : 0 < tl)
    (hlen : ts.length + 1 = p.max_errors) (t : ℚ) :
    (t - tl ≤ p.cooldown_period →
       canUse t (afterFailures .general (ts ++ [tl]) p) = false) ∧
    (p.cooldown_period < t - tl →
       canUse t (afterFailures .general (ts ++ [tl]) p) = true) := by
  obtain ⟨hav, hc, hrl⟩ := hp
  have hq := afterFailures_append .general ts tl p
  have hrc : (afterFailures .general ts p).error_count = ts.length := by
    rw [afterFailures_count .general (by decide) ts p, hc, Nat.zero_add]
  have hrm := afterFailures_max .general ts p
  have havq : (mark_error tl .general (afterFailures .general ts p)).available = false := by
    apply mark_error_available_of_reached
    omega
  have hrlq : (mark_error tl .general (afterFailures .general ts p)).rate_limited = false := by
    rw [(mark_error_general_rate_fields tl _).1, afterFailures_general_rate, hrl]
  have hlq := mark_error_last tl .general (afterFailures .general ts p)
  have hcd : (mark_error tl .general (afterFailures .general ts p)).cooldown_period
      = p.cooldown_period := by
    rw [mark_error_cooldown, afterFailures_cooldown]
  have hval := canUse_disabled _ havq hrlq tl t hlq
  rw [hq, hval, hcd]
  constructor
  · intro h
    have h2 : ¬ p.cooldown_period < t - tl := not_lt.mpr h
    simp [h2]
  · intro h
    simp [htl.ne', h]

/-- C5 witness: the default provider, two generic failures at instants 1 and
2; `can_retry` is false at instant 100 (within the 180 s cooldown) and true
at instant 200. -/
theorem generic_failures_cooldown_recovery_witness :
    canUse 100 (afterFailures .general ([1] ++ [2]) initProvider) = false ∧
    canUse 200 (afterFailures .general ([1] ++ [2]) initProvider) = true := by
  have h100 := generic_failures_cooldown_recovery initProvider ⟨rfl, rfl, rfl⟩ [1] 2
    (by norm_num) rfl 100
  have h200 := generic_failures_cooldown_recovery initProvider ⟨rfl, rfl, rfl⟩ [1] 2
    (by norm_num) rfl 200
  exact ⟨h100.1 (by norm_num [initProvider]), h200.2 (by norm_num [initProvider])⟩

/-- C3 counterexample: a single auth failure at instant 5 on a fresh provider
disables it (`canUse` is false right away), yet once the 180-second general
cooldown has elapsed `can_retry`'s cooldown branch resets the error state and
returns true — elapsed time alone does restore an auth-disabled backend,
contradicting the claim. -/
theorem auth_failure_recovers_after_cooldown_cx :
    canUse 5 (mark_error 5 .auth initProvider) = false ∧
    canUse 200 (mark_error 5 .auth initProvider) = true := by
  constructor
  · norm_num [canUse, can_retry, canRetryRest, mark_error, reset_errors, initProvider]
  · norm_num [canUse, can_retry, canRetryRest, mark_error, reset_errors, initProvider]

/-- C3 amended: after a single auth failure at instant `t0 > 0` the backend
is unavailable immediately and `can_retry` is false at every instant within
`cooldown_period` of the failure; but at any instant strictly after the
cooldown has elapsed `can_retry` returns true again — auth failures are not
exempt from the lazy cooldown recovery. -/
theorem auth_failure_cooldown_recovery
    (p : ProviderState) (hrl : p.rate_limited = false) (t0 : ℚ) (h0 : 0 < t0) (t : ℚ) :
    (mark_error t0 .auth p).available = false ∧
    (t - t0 ≤ p.cooldown_period → canUse t (mark_error t0 .auth p) = false) ∧
    (p.cooldown_period < t - t0 → canUse t (mark_error t0 .auth p) = true) := by
  have hav := mark_error_auth_available t0 p
  have hrlq : (mark_error t0 .auth p).rate_limited = false := by
    rw [(mark_error_auth_rate_fields t0 p).1, hrl]
  have hlq := mark_error_last t0 .auth p
  have hcd := mark_error_cooldown t0 .auth p
  have hval := canUse_disabled _ hav hrlq t0 t hlq
  refine ⟨hav, ?_, ?_⟩
  · intro h
    have h2 : ¬ (mark_error t0 .auth p).cooldown_period < t - t0 := by
      rw [hcd]; exact not_lt.mpr h
    rw [hval]
    simp [h2]
  · intro h
    rw [hval, hcd]
    simp [h0.ne', h]

/-- C3 witness: default provider, auth failure at instant 5; false at
instant 100, true at instant 200. -/
theorem auth_failure_cooldown_recovery_witness :
    canUse 100 (mark_error 5 .auth initProvider) = false ∧
    canUse 200 (mark_error 5 .auth initProvider) = true := by
  have h100 := auth_failure_cooldown_recovery initProvider rfl 5 (by norm_num) 100
  have h200 := auth_failure_cooldown_recovery initProvider rfl 5 (by norm_num) 200
  exact ⟨h100.2.1 (by norm_num [initProvider]), h200.2.2 (by norm_num [initProvider])⟩

/-- C6 counterexample: a generic failure followed by a rate-limit failure
(both at instant 10) on a fresh provider reaches `max_errors = 2`, so the
provider is also disabled; at instant 100 the 60-second rate-limit window has
elapsed, yet `can_retry` is still false (the general cooldown now governs),
contradicting the claim that `CanUse` is true as soon as the rate-limit
window elapses. -/
theorem rate_limit_recovery_cx :
    (10 : ℚ) + 60 ≤ 100 ∧
    canUse 100 (mark_error 10 .rate_limit (mark_error 10 .general initProvider)) = false := by
  constructor
  · norm_num
  · norm_num [canUse, can_retry, canRetryRest, mark_error, reset_errors, initProvider]

/-- C6 amended: for a backend that remains available after a rate-limit
failure (the failure does not bring `error_count` up to `max_errors`),
`can_retry` is false while the 60-second window is open and true as soon as
it has elapsed — an instant strictly earlier than the general cooldown
expiry whenever the cooldown exceeds 60 seconds. -/
theorem rate_limit_window_recovery
    (p : ProviderState) (hav : p.available = true) (hcnt : p.error_count + 1 < p.max_errors)
    (t0 : ℚ) (h0 : 0 ≤ t0) (t : ℚ) :
    (mark_error t0 .rate_limit p).rate_limited = true ∧
    (mark_error t0 .rate_limit p).rate_limit_reset_time = some (t0 + 60) ∧
    (t < t0 + 60 → canUse t (mark_error t0 .rate_limit p) = false) ∧
    (t0 + 60 ≤ t → canUse t (mark_error t0 .rate_limit p) = true) ∧
    (60 < p.cooldown_period → t0 + 60 < t0 + p.cooldown_period) := by
  have h60 : t0 + 60 ≠ 0 := by positivity
  have hq : mark_error t0 .rate_limit p =
      { p with
        error_count := p.error_count + 1
        consecutive_failures := p.consecutive_failures + 1
        last_error_time := some t0
        rate_limited := true
        rate_limit_reset_time := some (t0 + 60) } := by
    simp only [mark_error]
    rw [if_neg (by omega)]
  refine ⟨by rw [hq], by rw [hq], ?_, ?_, fun h => by linarith⟩
  · intro ht
    rw [canUse, hq]
    simp only [can_retry]
    rw [if_pos ⟨trivial, h60⟩, if_pos ht]
  · intro ht
    rw [canUse, hq]
    simp only [can_retry]
    rw [if_pos ⟨trivial, h60⟩, if_neg (not_lt.mpr ht)]
    simp [canRetryRest, hav]

/-- C6 witness: default provider, rate-limit failure at instant 10; false at
instant 30 (window open), true at instant 80 (window elapsed), and 70 is
strictly before the cooldown expiry 190. -/
theorem rate_limit_window_recovery_witness :
    canUse 30 (mark_error 10 .rate_limit initProvider) = false ∧
    canUse 80 (mark_error 10 .rate_limit initProvider) = true ∧
    (10 : ℚ) + 60 < 10 + initProvider.cooldown_period := by
  have h30 := rate_limit_window_recovery initProvider rfl (by norm_num [initProvider]) 10
    (by norm_num) 30
  have h80 := rate_limit_window_recovery initProvider rfl (by norm_num [initProvider]) 10
    (by norm_num) 80
  exact ⟨h30.2.2.1 (by norm_num), h80.2.2.2.1 (by norm_num),
    h30.2.2.2.2 (by norm_num [initProvider])⟩

/-- C8: immediately after `reset_errors` (the code's `RecordSuccess`), both
error counters are zero, the rate-limit flag and the last-error timestamp are
cleared, the provider is available, and `can_retry` returns true at every
instant. -/
theorem record_success_restores (p : ProviderState) (t : ℚ) :
    (reset_errors p).error_count = 0 ∧
    (reset_errors p).consecutive_failures = 0 ∧
    (reset_errors p).rate_limited = false ∧
    (reset_errors p).last_error_time = none ∧
    (reset_errors p).available = true ∧
    canUse t (reset_errors p) = true := by
  refine ⟨rfl, rfl, rfl, rfl, rfl, ?_⟩
  simp [canUse, can_retry, canRetryRest, reset_errors]

/-- C10: every `mark_error` call, of any kind, increments
`consecutive_failures` by one and stamps `last_error_time`; generic and
rate-limit failures also increment `error_count` by one, so `max_errors`
consecutive rate-limit failures from a healthy state disable the provider
exactly as generic failures do. -/
theorem record_failure_counting
    (p : ProviderState) (hp : Healthy p) (ts : List ℚ) (tl : ℚ)
    (hlen : ts.length + 1 = p.max_errors) :
    (∀ (q : ProviderState) (now : ℚ) (k : ErrKind),
        (mark_error now k q).consecutive_failures = q.consecutive_failures + 1 ∧
        (mark_error now k q).last_error_time = some now ∧
        (k ≠ ErrKind.auth → (mark_error now k q).error_count = q.error_count + 1)) ∧
    (afterFailures .rate_limit (ts ++ [tl]) p).available = false ∧
    (afterFailures .general (ts ++ [tl]) p).available = false := by
  obtain ⟨hav, hc, hrl⟩ := hp
  refine ⟨fun q now k => ⟨mark_error_consecutive now k q, mark_error_last now k q,
    fun hk => mark_error_count_nonauth now k hk q⟩, ?_, ?_⟩
  · rw [afterFailures_append]
    apply mark_error_available_of_reached
    have h1 := afterFailures_count .rate_limit (by decide) ts p
    have h2 := afterFailures_max .rate_limit ts p
    omega
  · rw [afterFailures_append]
    apply mark_error_available_of_reached
    have h1 := afterFailures_count .general (by decide) ts p
    have h2 := afterFailures_max .general ts p
    omega

/-- C10 witness: on the default provider an auth failure still increments
`consecutive_failures` to 1, and two rate-limit failures (like two generic
failures) disable the provider. -/
theorem record_failure_counting_witness :
    (mark_error 3 .auth initProvider).consecutive_failures = 1 ∧
    (afterFailures .rate_limit ([1] ++ [2]) initProvider).available = false ∧
    (afterFailures .general ([1] ++ [2]) initProvider).available = false := by
  have h := record_failure_counting initProvider ⟨rfl, rfl, rfl⟩ [1] 2 rfl
  exact ⟨(h.1 initProvider 3 .auth).1, h.2.1, h.2.2⟩


lemma mem_planPriorities {plan : List PlanStep} {q : Int} :
    q ∈ planPriorities plan ↔ q ∈ plan.map priorityOf := by
  unfold planPriorities
  rw [(List.perm_insertionSort _ _).mem_iff, List.mem_dedup]

lemma planPriorities_sorted (plan : List PlanStep) :
    List.Sorted (· ≤ ·) (planPriorities plan) :=
  List.sorted_insertionSort _ _

lemma planPriorities_nodup (plan : List PlanStep) : (planPriorities plan).Nodup :=
  (List.perm_insertionSort _ _).nodup_iff.mpr (List.nodup_dedup _)

/-- A sorted list splits at any element: everything up to and including `pu`
is `≤ pu`, and any strictly larger member lies in the tail part. -/
lemma sorted_le_split {ps : List Int} (hs : List.Sorted (· ≤ ·) ps) {pu pv : Int}
    (hu : pu ∈ ps) (hv : pv ∈ ps) (hlt : pu < pv) :
    ∃ l1 l2, ps = l1 ++ l2 ∧ pu ∈ l1 ∧ pv ∈ l2 ∧ ∀ q ∈ l1, q ≤ pu := by
  induction ps with
  | nil => cases hu
  | cons a rest ih =>
      rw [List.sorted_cons] at hs
      obtain ⟨ha, hrest⟩ := hs
      rcases List.mem_cons.mp hu with rfl | hu'
      · refine ⟨[pu], rest, rfl, List.mem_singleton_self _, ?_, ?_⟩
        · rcases List.mem_cons.mp hv with rfl | hv'
          · exact absurd hlt (lt_irrefl _)
          · exact hv'
        · intro q hq
          rw [List.mem_singleton] at hq
          exact hq.le
      · have hpu_le : a ≤ pu := ha pu hu'
        have hv' : pv ∈ rest := by
          rcases List.mem_cons.mp hv with rfl | h
          · exact absurd (lt_of_le_of_lt hpu_le hlt) (lt_irrefl _)
          · exact h
        obtain ⟨l1, l2, heq, h1, h2, h3⟩ := ih hrest hu' hv'
        refine ⟨a :: l1, l2, by rw [List.cons_append, heq], List.mem_cons_of_mem a h1, h2, ?_⟩
        intro q hq
        rcases List.mem_cons.mp hq with rfl | hq'
        · exact hpu_le
        · exact h3 q hq'

lemma filter_registered_eq {agents : List String} {plan : List PlanStep}
    (hreg : ∀ s ∈ plan, registered agents s = true)
    {g : List PlanStep} (hg : ∀ s ∈ g, s ∈ plan) :
    g.filter (registered agents) = g :=
  List.filter_eq_self.mpr (fun s hs => hreg s (hg s hs))

lemma mem_group_of_mem_plan {plan : List PlanStep} {w : PlanStep} (hw : w ∈ plan) :
    w ∈ plan.filter (fun s => priorityOf s == priorityOf w) :=
  List.mem_filter.mpr ⟨hw, by simp⟩

lemma group_mem_planGroups {plan : List PlanStep} {w : PlanStep} (hw : w ∈ plan) :
    plan.filter (fun s => priorityOf s == priorityOf w) ∈ planGroups plan := by
  unfold planGroups
  exact List.mem_map_of_mem _ (mem_planPriorities.mpr (List.mem_map_of_mem _ hw))

lemma mem_execGroup_of_mem (beh : PlanStep → Outcome) (ts : ℕ) (agents : List String)
    {g : List PlanStep} (hfilt : g.filter (registered agents) = g)
    {w : PlanStep} (hw : w ∈ g) {wid : String} (hwid : w.id = some wid) :
    (wid, execute_task ts (beh w)) ∈ execGroup beh ts agents g := by
  have hex : execGroup beh ts agents g
      = List.zipWith (fun sF p => (stepId p.1 p.2, execute_task ts (beh sF))) g g.enum := by
    unfold execGroup
    rw [hfilt]
  obtain ⟨j, hj, hje⟩ := List.getElem_of_mem hw
  have hjlen : j < (List.zipWith
      (fun sF p => (stepId p.1 p.2, execute_task ts (beh sF))) g g.enum).length := by
    rw [List.length_zipWith, List.enum_length]
    simpa using hj
  have hval : (List.zipWith
      (fun sF p => (stepId p.1 p.2, execute_task ts (beh sF))) g g.enum).get ⟨j, hjlen⟩
      = (wid, execute_task ts (beh w)) := by
    rw [List.get_eq_getElem, List.getElem_zipWith, List.getElem_enum]
    simp only [hje]
    simp [stepId, hwid]
  rw [hex, ← hval]
  exact List.get_mem _ _ hjlen

lemma record_mem_groupTrace (σ : List PlanStep → List PlanStep) (agents : List String)
    {g : List PlanStep} (hfilt : g.filter (registered agents) = g)
    {w : PlanStep} (hw : w ∈ g) {wid : String} (hwid : w.id = some wid) :
    Ev.record wid ∈ groupTrace σ agents g := by
  unfold groupTrace
  rw [hfilt]
  apply List.mem_append_right
  obtain ⟨j, hj, hje⟩ := List.getElem_of_mem hw
  have hjlen : j < (List.zipWith
      (fun _ p => Ev.record (stepId p.1 p.2)) g g.enum).length := by
    rw [List.length_zipWith, List.enum_length]
    simpa using hj
  have hval : (List.zipWith
      (fun _ p => Ev.record (stepId p.1 p.2)) g g.enum).get ⟨j, hjlen⟩
      = Ev.record wid := by
    rw [List.get_eq_getElem, List.getElem_zipWith, List.getElem_enum]
    simp only [hje]
    simp [stepId, hwid]
  rw [← hval]
  exact List.get_mem _ _ hjlen

lemma start_mem_groupTrace (σ : List PlanStep → List PlanStep)
    (hσ : ∀ l, (σ l).Perm l) (agents : List String)
    {g : List PlanStep} (hfilt : g.filter (registered agents) = g)
    {w : PlanStep} (hw : w ∈ g) {wid : String} (hwid : w.id = some wid) :
    Ev.start wid ∈ groupTrace σ agents g := by
  unfold groupTrace
  rw [hfilt]
  apply List.mem_append_left
  exact List.mem_map.mpr ⟨w, (hσ g).mem_iff.mpr hw, by simp [hwid]⟩

lemma zipWith_record_shape {l1 : List PlanStep} {l2 : List (ℕ × PlanStep)} {e : Ev}
    (he : e ∈ List.zipWith (fun _ p => Ev.record (stepId p.1 p.2)) l1 l2) :
    ∃ y, e = Ev.record y := by
  induction l1 generalizing l2 with
  | nil => simp at he
  | cons a as ih =>
      cases l2 with
      | nil => simp at he
      | cons b bs =>
          rcases List.mem_cons.mp he with h | h
          · exact ⟨_, h⟩
          · exact ih h

lemma start_mem_groupTrace_elim {σ : List PlanStep → List PlanStep}
    (hσ : ∀ l, (σ l).Perm l) {agents : List String}
    {g : List PlanStep} {x : String} (hx : Ev.start x ∈ groupTrace σ agents g) :
    ∃ w, w ∈ g ∧ registered agents w = true ∧ w.id.getD "task" = x := by
  unfold groupTrace at hx
  rcases List.mem_append.mp hx with h | h
  · obtain ⟨w, hw, he⟩ := List.mem_map.mp h
    have hwf : w ∈ g.filter (registered agents) := (hσ _).mem_iff.mp hw
    obtain ⟨hwg, hwreg⟩ := List.mem_filter.mp hwf
    refine ⟨w, hwg, hwreg, ?_⟩
    injection he
  · obtain ⟨y, hy⟩ := zipWith_record_shape h
    cases hy

/-- C2 counterexample: in the plan `[x: priority 1, handler missing,
y: priority 2, handler echo]` the priority-2 task `y` starts although the
priority-1 task `x` never has any recorded result — the claim's "every task
of group k has a recorded result before any task of the next group starts"
fails for tasks whose handler is not registered. -/
theorem priority_ordering_cx :
    Ev.start "y" ∈ executeTrace id ["echo"] [stepMissingX, stepEchoY] ∧
    Ev.record "x" ∉ executeTrace id ["echo"] [stepMissingX, stepEchoY] := by
  decide

/-- C2 amended: for a plan all of whose tasks have registered handlers and
pairwise distinct explicit ids, and any launch-order choice `σ` (the
unconstrained interleaving of `asyncio.gather`), whenever task `u` has a
strictly lower priority than task `v`, the trace splits into a prefix
containing `u`'s record event and no start of `v`, and a suffix containing
`v`'s start: every lower-priority task's result is recorded before any
higher-priority-group task starts. -/
theorem execute_plan_priority_ordering
    (σ : List PlanStep → List PlanStep) (hσ : ∀ l, (σ l).Perm l)
    (agents : List String) (plan : List PlanStep)
    (hreg : ∀ s ∈ plan, registered agents s = true)
    (hids : ∀ s ∈ plan, s.id.isSome = true)
    (hnd : (plan.map PlanStep.id).Nodup)
    (u v : PlanStep) (hu : u ∈ plan) (hv : v ∈ plan)
    (uid vid : String) (huid : u.id = some uid) (hvid : v.id = some vid)
    (hlt : priorityOf u < priorityOf v) :
    ∃ pre post, executeTrace σ agents plan = pre ++ post ∧
      Ev.record uid ∈ pre ∧ Ev.start vid ∉ pre ∧ Ev.start vid ∈ post := by
  have hpu : priorityOf u ∈ planPriorities plan :=
    mem_planPriorities.mpr (List.mem_map_of_mem _ hu)
  have hpv : priorityOf v ∈ planPriorities plan :=
    mem_planPriorities.mpr (List.mem_map_of_mem _ hv)
  obtain ⟨l1, l2, hsplit, h1, h2, h3⟩ :=
    sorted_le_split (planPriorities_sorted plan) hpu hpv hlt
  refine ⟨((l1.map (fun q =>
      groupTrace σ agents (plan.filter (fun s => priorityOf s == q)))).flatten),
    ((l2.map (fun q =>
      groupTrace σ agents (plan.filter (fun s => priorityOf s == q)))).flatten),
    ?_, ?_, ?_, ?_⟩
  · unfold executeTrace planGroups
    rw [List.map_map, hsplit, List.map_append, List.flatten_append]
    rfl
  · apply List.mem_flatten.mpr
    refine ⟨groupTrace σ agents (plan.filter (fun s => priorityOf s == priorityOf u)),
      List.mem_map_of_mem _ h1, ?_⟩
    exact record_mem_groupTrace σ agents
      (filter_registered_eq hreg (fun s hs => (List.mem_filter.mp hs).1))
      (mem_group_of_mem_plan hu) huid
  · intro hmem
    obtain ⟨blk, hblk, hin⟩ := List.mem_flatten.mp hmem
    obtain ⟨q, hq, rfl⟩ := List.mem_map.mp hblk
    obtain ⟨w, hwg, hwreg, hwid⟩ := start_mem_groupTrace_elim hσ hin
    obtain ⟨hwplan, hwq⟩ := List.mem_filter.mp hwg
    obtain ⟨x, hx⟩ := Option.isSome_iff_exists.mp (hids w hwplan)
    have hxvid : x = vid := by
      rw [hx] at hwid
      simpa using hwid
    have hwv : w = v :=
      List.inj_on_of_nodup_map hnd hwplan hv (by rw [hx, hxvid, hvid])
    have hpvq : priorityOf v = q := by
      rw [← hwv]
      exact beq_iff_eq.mp hwq
    have := h3 q hq
    rw [← hpvq] at this
    exact absurd (lt_of_lt_of_le hlt this) (lt_irrefl _)
  · apply List.mem_flatten.mpr
    refine ⟨groupTrace σ agents (plan.filter (fun s => priorityOf s == priorityOf v)),
      List.mem_map_of_mem _ h2, ?_⟩
    exact start_mem_groupTrace σ hσ agents
      (filter_registered_eq hreg (fun s hs => (List.mem_filter.mp hs).1))
      (mem_group_of_mem_plan hv) hvid

/-- C2 witness: the spec's `[1,1,2]` scenario with all handlers registered —
task `a` (priority 1) is recorded before task `c` (priority 2) starts, in
the identity launch order. -/
theorem execute_plan_priority_ordering_witness :
    ∃ pre post, executeTrace id ["echo"] [stepEchoA, stepEchoB, stepEchoC] = pre ++ post ∧
      Ev.record "a" ∈ pre ∧ Ev.start "c" ∉ pre ∧ Ev.start "c" ∈ post :=
  execute_plan_priority_ordering id (fun l => List.Perm.refl l) ["echo"]
    [stepEchoA, stepEchoB, stepEchoC] (by decide) (by decide) (by decide)
    stepEchoA stepEchoC (by decide) (by decide) "a" "c" rfl rfl (by decide)

/-- C4 counterexample: in the spec's end-to-end example plan
`[a: echo, b: missing, c: echo]`, the result map of `execute_plan` has no
entry at all under `b` — no structured handler-not-found failure is
recorded; the task is silently dropped. -/
theorem missing_handler_no_entry_cx :
    (execute_plan behEcho 300 ["echo"] [stepEchoA, stepMissingB, stepEchoC]).lookup "b"
      = none := by
  decide

/-- C4 amended: a task whose handler name is not registered is silently
skipped: `execute_plan` creates no coroutine for it and its id gets no entry
in the result map; the other tasks still execute and (no skipped task
preceding them in their group) are recorded under their own ids. On the
spec's example plan the result map is exactly
`{a: success, c: success}`. -/
theorem missing_handler_silently_skipped :
    execute_plan behEcho 300 ["echo"] [stepEchoA, stepMissingB, stepEchoC]
      = [("a", TResult.ok "done a"), ("c", TResult.ok "done c")] ∧
    Ev.start "b" ∉ executeTrace id ["echo"] [stepEchoA, stepMissingB, stepEchoC] := by
  decide

lemma updateA_not_mem {m : List (String × TResult)} {k : String} {v : TResult}
    (h : ∀ kv ∈ m, kv.1 ≠ k) : updateA m k v = m ++ [(k, v)] := by
  unfold updateA
  rw [if_neg]
  intro hany
  obtain ⟨kv, hkv, he⟩ := List.any_eq_true.mp hany
  exact h kv hkv (beq_iff_eq.mp he)

lemma foldl_updateA_append :
    ∀ (es acc : List (String × TResult)), ((acc ++ es).map Prod.fst).Nodup →
      es.foldl (fun a kv => updateA a kv.1 kv.2) acc = acc ++ es := by
  intro es
  induction es with
  | nil => intro acc _; simp
  | cons kv rest ih =>
      intro acc h
      have hkey : ∀ kv' ∈ acc, kv'.1 ≠ kv.1 := by
        intro kv' hkv' he
        rw [List.map_append, List.nodup_append] at h
        exact h.2.2 (List.mem_map_of_mem _ hkv')
          (by rw [he]; exact List.mem_map_of_mem _ (List.mem_cons_self kv rest))
      rw [List.foldl_cons, updateA_not_mem hkey,
        ih (acc ++ [kv]) (by simpa using h)]
      simp

lemma lookup_eq_of_nodup_keys :
    ∀ {es : List (String × TResult)}, (es.map Prod.fst).Nodup →
      ∀ {k : String} {v : TResult}, (k, v) ∈ es → es.lookup k = some v := by
  intro es
  induction es with
  | nil => intro _ k v h; cases h
  | cons kv rest ih =>
      intro hnd k v hmem
      obtain ⟨k1, v1⟩ := kv
      rw [List.map_cons, List.nodup_cons] at hnd
      rcases List.mem_cons.mp hmem with he | hmem'
      · injection he with he1 he2
        subst he1
        subst he2
        simp [List.lookup]
      · have hne : (k == k1) = false := by
          rw [beq_eq_false_iff_ne]
          rintro rfl
          exact hnd.1 (List.mem_map.mpr ⟨_, hmem', rfl⟩)
        simp only [List.lookup_cons, hne]
        exact ih hnd.2 hmem'

/-- Folding `execute_plan`'s group results into the dict is a plain
concatenation when all keys are distinct. -/
lemma execute_plan_eq_flatten (beh : PlanStep → Outcome) (ts : ℕ) (agents : List String)
    (plan : List PlanStep)
    (hkeys : ((((planGroups plan).map (execGroup beh ts agents)).flatten).map Prod.fst).Nodup) :
    execute_plan beh ts agents plan
      = ((planGroups plan).map (execGroup beh ts agents)).flatten := by
  unfold execute_plan
  suffices h : ∀ (gs : List (List PlanStep)) (acc : List (String × TResult)),
      ((acc ++ (gs.map (execGroup beh ts agents)).flatten).map Prod.fst).Nodup →
      gs.foldl (fun acc g =>
          (execGroup beh ts agents g).foldl (fun a kv => updateA a kv.1 kv.2) acc) acc
        = acc ++ (gs.map (execGroup beh ts agents)).flatten by
    simpa using h (planGroups plan) [] (by simpa using hkeys)
  intro gs
  induction gs with
  | nil => intro acc _; simp
  | cons g rest ihg =>
      intro acc h
      rw [List.foldl_cons]
      have hpre : ((acc ++ execGroup beh ts agents g).map Prod.fst).Nodup := by
        refine List.Nodup.sublist (List.Sublist.map _ ?_) h
        rw [List.map_cons, List.flatten_cons, ← List.append_assoc]
        exact List.sublist_append_left _ _
      rw [foldl_updateA_append _ acc hpre,
        ihg (acc ++ execGroup beh ts agents g) (by simpa [List.append_assoc] using h)]
      simp

/-- Partition property of the priority grouping: flattening the groups is a
permutation of the plan. -/
lemma flatten_filter_perm :
    ∀ (ps : List Int) (l : List PlanStep), ps.Nodup →
      (∀ s ∈ l, priorityOf s ∈ ps) →
      ((ps.map (fun q => l.filter (fun s => priorityOf s == q))).flatten).Perm l := by
  intro ps
  induction ps with
  | nil =>
      intro l _ hcov
      have : l = [] :=
        List.eq_nil_iff_forall_not_mem.mpr (fun s hs => by cases hcov s hs)
      simp [this]
  | cons q qs ih =>
      intro l hnd hcov
      have hnd' := List.nodup_cons.mp hnd
      rw [List.map_cons, List.flatten_cons]
      have hrw : qs.map (fun q2 => l.filter (fun s => priorityOf s == q2))
          = qs.map (fun q2 => (l.filter (fun s => !(priorityOf s == q))).filter
              (fun s => priorityOf s == q2)) := by
        apply List.map_congr_left
        intro q2 hq2
        rw [List.filter_filter]
        apply List.filter_congr
        intro x _
        by_cases h : priorityOf x = q2
        · have hq2q : q2 ≠ q := by
            rintro rfl
            exact hnd'.1 hq2
          simp [h, hq2q]
        · simp [h]
      rw [hrw]
      have hcov' : ∀ s ∈ l.filter (fun s => !(priorityOf s == q)), priorityOf s ∈ qs := by
        intro s hs
        obtain ⟨hsl, hsq⟩ := List.mem_filter.mp hs
        rcases List.mem_cons.mp (hcov s hsl) with he | hin
        · simp [he] at hsq
        · exact hin
      refine List.Perm.trans (List.Perm.append_left _ (ih _ hnd'.2 hcov')) ?_
      exact List.filter_append_perm _ l

lemma flatten_planGroups_perm (plan : List PlanStep) :
    ((planGroups plan).flatten).Perm plan := by
  unfold planGroups
  exact flatten_filter_perm (planPriorities plan) plan (planPriorities_nodup plan)
    (fun s hs => mem_planPriorities.mpr (List.mem_map_of_mem _ hs))

/-- With every handler registered and every id present, a group's recorded
keys are exactly its steps' ids. -/
lemma execGroup_keys (beh : PlanStep → Outcome) (ts : ℕ) (agents : List String)
    {g : List PlanStep} (hfilt : g.filter (registered agents) = g)
    (hidsg : ∀ s ∈ g, s.id.isSome = true) :
    (execGroup beh ts agents g).map Prod.fst
      = g.map (fun s => s.id.getD "task") := by
  have hex : execGroup beh ts agents g
      = List.zipWith (fun sF p => (stepId p.1 p.2, execute_task ts (beh sF))) g g.enum := by
    unfold execGroup
    rw [hfilt]
  rw [hex]
  apply List.ext_getElem
  · simp [List.length_zipWith, List.enum_length]
  · intro i h1 h2
    rw [List.getElem_map]
    have h3 : i < (List.zipWith
        (fun sF p => (stepId p.1 p.2, execute_task ts (beh sF))) g g.enum).length := by
      simpa using h1
    rw [List.getElem_zipWith, List.getElem_enum, List.getElem_map]
    obtain ⟨x, hx⟩ := Option.isSome_iff_exists.mp
      (hidsg _ (List.getElem_mem (by simpa using h2)))
    simp [stepId, hx]

/-- With every handler registered and distinct explicit ids, the recorded
keys of the whole plan execution are pairwise distinct. -/
lemma plan_entry_keys_nodup (beh : PlanStep → Outcome) (ts : ℕ) (agents : List String)
    (plan : List PlanStep)
    (hreg : ∀ s ∈ plan, registered agents s = true)
    (hids : ∀ s ∈ plan, s.id.isSome = true)
    (hnd : (plan.map PlanStep.id).Nodup) :
    ((((planGroups plan).map (execGroup beh ts agents)).flatten).map Prod.fst).Nodup := by
  have hsub : ∀ g ∈ planGroups plan, ∀ s ∈ g, s ∈ plan := by
    intro g hg s hs
    unfold planGroups at hg
    obtain ⟨q, _, rfl⟩ := List.mem_map.mp hg
    exact (List.mem_filter.mp hs).1
  have hmaps : ((planGroups plan).map (execGroup beh ts agents)).map (List.map Prod.fst)
      = (planGroups plan).map (fun g => g.map (fun s => s.id.getD "task")) := by
    rw [List.map_map]
    apply List.map_congr_left
    intro g hg
    exact execGroup_keys beh ts agents
      (filter_registered_eq hreg (hsub g hg)) (fun s hs => hids s (hsub g hg s hs))
  have hflat : (((planGroups plan).map (execGroup beh ts agents)).flatten).map Prod.fst
      = (((planGroups plan).flatten).map (fun s => s.id.getD "task")) := by
    rw [List.map_flatten, hmaps, ← List.map_flatten]
  rw [hflat]
  have hperm := (flatten_planGroups_perm plan).map (fun s : PlanStep => s.id.getD "task")
  rw [hperm.nodup_iff]
  refine List.Nodup.map_on ?_ (List.Nodup.of_map _ hnd)
  intro x hxm y hym he
  obtain ⟨a, ha⟩ := Option.isSome_iff_exists.mp (hids x hxm)
  obtain ⟨b, hb⟩ := Option.isSome_iff_exists.mp (hids y hym)
  refine List.inj_on_of_nodup_map hnd hxm hym ?_
  rw [ha, hb]
  rw [ha, hb] at he
  simpa using he

/-- With every handler registered and distinct explicit ids, each task's
recorded result is exactly `execute_task` applied to that task's own
outcome, found under that task's id. -/
lemma execute_plan_lookup (beh : PlanStep → Outcome) (ts : ℕ) (agents : List String)
    (plan : List PlanStep)
    (hreg : ∀ s ∈ plan, registered agents s = true)
    (hids : ∀ s ∈ plan, s.id.isSome = true)
    (hnd : (plan.map PlanStep.id).Nodup)
    {w : PlanStep} (hw : w ∈ plan) {wid : String} (hwid : w.id = some wid) :
    (execute_plan beh ts agents plan).lookup wid = some (execute_task ts (beh w)) := by
  have hkeys := plan_entry_keys_nodup beh ts agents plan hreg hids hnd
  rw [execute_plan_eq_flatten beh ts agents plan hkeys]
  apply lookup_eq_of_nodup_keys hkeys
  apply List.mem_flatten.mpr
  refine ⟨execGroup beh ts agents (plan.filter (fun s => priorityOf s == priorityOf w)),
    List.mem_map_of_mem _ (group_mem_planGroups hw), ?_⟩
  exact mem_execGroup_of_mem beh ts agents
    (filter_registered_eq hreg (fun s hs => (List.mem_filter.mp hs).1))
    (mem_group_of_mem_plan hw) hwid

/-- C7 counterexample: in the plan `[m: handler missing, f: handler echo]`
where `f`'s handler raises `boom`, the result map has no entry under `f` —
the error is recorded under `m`'s id instead, because `execute_plan` keys the
filtered coroutine results by the unfiltered group's ids positionally. -/
theorem failing_task_misattributed_cx :
    behBoom stepEchoF = Outcome.raiseExc "boom" ∧
    (execute_plan behBoom 300 ["echo"] [stepMissingM, stepEchoF]).lookup "f" = none ∧
    (execute_plan behBoom 300 ["echo"] [stepMissingM, stepEchoF]).lookup "m"
      = some (TResult.err "boom") := by
  decide

/-- C7 amended: for a plan all of whose tasks have registered handlers and
pairwise distinct explicit ids, a task whose handler raises, returns a
failure, or exceeds its timeout is recorded as the corresponding error
result under its own id, and every other task's recorded result is
unchanged if that task's outcome is replaced (in particular by a success):
the failure aborts neither the group nor the plan. -/
theorem execute_plan_failure_isolated
    (beh beh2 : PlanStep → Outcome) (ts : ℕ) (agents : List String)
    (plan : List PlanStep)
    (hreg : ∀ s ∈ plan, registered agents s = true)
    (hids : ∀ s ∈ plan, s.id.isSome = true)
    (hnd : (plan.map PlanStep.id).Nodup)
    (u : PlanStep) (hu : u ∈ plan) (uid : String) (huid : u.id = some uid)
    (hagree : ∀ w ∈ plan, w ≠ u → beh2 w = beh w) :
    (∀ e, beh u = Outcome.raiseExc e →
        (execute_plan beh ts agents plan).lookup uid = some (TResult.err e)) ∧
    (∀ e, beh u = Outcome.fail e →
        (execute_plan beh ts agents plan).lookup uid = some (TResult.err e)) ∧
    (beh u = Outcome.timeout →
        (execute_plan beh ts agents plan).lookup uid
          = some (TResult.err ("Task timed out after " ++ toString ts ++ " seconds"))) ∧
    (∀ w ∈ plan, w ≠ u → ∀ wid, w.id = some wid →
        (execute_plan beh2 ts agents plan).lookup wid
          = (execute_plan beh ts agents plan).lookup wid) := by
  refine ⟨?_, ?_, ?_, ?_⟩
  · intro e he
    rw [execute_plan_lookup beh ts agents plan hreg hids hnd hu huid, he]
    rfl
  · intro e he
    rw [execute_plan_lookup beh ts agents plan hreg hids hnd hu huid, he]
    rfl
  · intro he
    rw [execute_plan_lookup beh ts agents plan hreg hids hnd hu huid, he]
    rfl
  · intro w hw hne wid hwid
    rw [execute_plan_lookup beh ts agents plan hreg hids hnd hw hwid,
      execute_plan_lookup beh2 ts agents plan hreg hids hnd hw hwid,
      hagree w hw hne]

/-- C7 witness: in the all-registered plan `[f: priority 1, c: priority 2]`
where `f`'s handler raises `boom`, the error is recorded under `f`, and `c`'s
recorded result is the same as in the run where `f` succeeds. -/
theorem execute_plan_failure_isolated_witness :
    (execute_plan behBoom 300 ["echo"] [stepEchoF, stepEchoC]).lookup "f"
      = some (TResult.err "boom") ∧
    (execute_plan behBoomFixed 300 ["echo"] [stepEchoF, stepEchoC]).lookup "c"
      = (execute_plan behBoom 300 ["echo"] [stepEchoF, stepEchoC]).lookup "c" := by
  have h := execute_plan_failure_isolated behBoom behBoomFixed 300 ["echo"]
    [stepEchoF, stepEchoC] (by decide) (by decide) (by decide)
    stepEchoF (by decide) "f" rfl (by decide)
  exact ⟨h.1 "boom" (by decide), h.2.2.2 stepEchoC (by decide) (by decide) "c" rfl⟩

/-- C9 counterexample: `_validate_plan` passes a supplied priority `0`
through unchanged and keeps duplicated supplied ids, so the produced plan
violates the claimed invariant (priority ≥ 1, unique ids). -/
theorem validate_plan_invariant_cx :
    (∃ v ∈ validate_plan [rawPriorityZero, rawDupId], v.priority < 1) ∧
    ¬ ((validate_plan [rawPriorityZero, rawDupId]).map VStep.id).Nodup := by
  decide

/-- C9 amended: `_validate_plan` never rejects a plan — it is total and
length-preserving, validating each step by index; every missing field is
defaulted (`id` → `step_i`, `priority` → `i + 1`, which is ≥ 1; an absent or
unrecognised agent becomes `coder`, always in `valid_agents`); supplied
priorities and ids pass through unvalidated, so the invariant holds only for
the defaulted fields: if every step's priority is missing, all validated
priorities are ≥ 1, and all-missing ids produce distinct defaults (shown on
a three-step plan). -/
theorem validate_plan_defaults (plan : List RawStep) :
    (validate_plan plan).length = plan.length ∧
    (∀ i (h : i < plan.length),
        (validate_plan plan)[i]? = some (validate_step i (plan.get ⟨i, h⟩))) ∧
    (∀ i (h : i < plan.length), (plan.get ⟨i, h⟩).priority = none →
        (validate_step i (plan.get ⟨i, h⟩)).priority = Int.ofNat i + 1 ∧
          1 ≤ (validate_step i (plan.get ⟨i, h⟩)).priority) ∧
    (∀ i (h : i < plan.length), (plan.get ⟨i, h⟩).id = none →
        (validate_step i (plan.get ⟨i, h⟩)).id = "step_" ++ toString i) ∧
    (∀ v ∈ validate_plan plan, v.agent ∈ valid_agents) ∧
    ((∀ s ∈ plan, s.priority = none) → ∀ v ∈ validate_plan plan, 1 ≤ v.priority) ∧
    ((validate_plan [rawEmpty, rawEmpty, rawEmpty]).map VStep.id).Nodup := by
  have hlen : (validate_plan plan).length = plan.length := by
    unfold validate_plan
    rw [List.length_map, List.enum_length]
  have hget : ∀ i (h : i < plan.length),
      (validate_plan plan)[i]? = some (validate_step i (plan.get ⟨i, h⟩)) := by
    intro i h
    have h2 : i < (validate_plan plan).length := by rw [hlen]; exact h
    rw [List.getElem?_eq_getElem h2]
    unfold validate_plan
    rw [List.getElem_map, List.getElem_enum, List.get_eq_getElem]
  refine ⟨hlen, hget, ?_, ?_, ?_, ?_, by decide⟩
  · intro i h hp
    rw [List.get_eq_getElem] at hp
    constructor
    · simp [validate_step, hp]
    · simp [validate_step, hp]
  · intro i h hid
    rw [List.get_eq_getElem] at hid
    simp [validate_step, hid]
  · intro v hv
    unfold validate_plan at hv
    obtain ⟨p, _, rfl⟩ := List.mem_map.mp hv
    simp only [validate_step, valid_agents]
    split
    · next hmem => simpa [valid_agents] using List.mem_of_elem_eq_true hmem
    · simp
  · intro hall v hv
    unfold validate_plan at hv
    obtain ⟨p, hp, rfl⟩ := List.mem_map.mp hv
    obtain ⟨j, hj, hje⟩ := List.getElem_of_mem hp
    rw [List.getElem_enum] at hje
    have hj2 : j < plan.length := by simpa using hj
    have hpm : p.2.priority = none := by
      rw [← hje]
      exact hall _ (List.getElem_mem hj2)
    have hval : (validate_step p.1 p.2).priority = Int.ofNat p.1 + 1 := by
      simp [validate_step, hpm]
    rw [hval]
    have h0 : 0 ≤ Int.ofNat p.1 := Int.ofNat_nonneg p.1
    omega

/-- C9 witness: a two-step plan with all fields missing is validated in
full — same length, step 0 kept, and the defaulted priority of step 1 is
positive. -/
theorem validate_plan_defaults_witness :
    (validate_plan [rawEmpty, rawEmpty]).length = 2 ∧
    (validate_plan [rawEmpty, rawEmpty])[0]? = some (validate_step 0 rawEmpty) ∧
    1 ≤ (validate_step 1 rawEmpty).priority := by
  have h := validate_plan_defaults [rawEmpty, rawEmpty]
  exact ⟨h.1, h.2.1 0 (by norm_num), (h.2.2.1 1 (by norm_num) rfl).2⟩

lemma localGenerate_ne_empty (prompt : String) : localGenerate prompt ≠ "" := by
  unfold localGenerate
  dsimp only
  split_ifs
  · decide
  · decide
  · decide
  · intro hcontra
    have hlen := congrArg String.length hcontra
    rw [String.length_append, String.length_append] at hlen
    have h1 : 0 < ("I received your message: \x27" : String).length := by decide
    have h2 : ("" : String).length = 0 := by decide
    omega

/-- An exhausted-candidates loop in which every candidate fails on every
attempt and no candidate is named `local` always ends in the last-attempt
fallback to the offline responder. -/
lemma genLoop_all_fail (cands : List MProvider) (prompt : String) (sys : Option String)
    (maxr : ℕ) (hne : cands ≠ [])
    (hfailc : ∀ p ∈ cands,
        (∀ i, ∃ e, p.gen i prompt sys = Except.error e) ∧ p.name ≠ "local") :
    ∀ (attempt : ℕ) (lastErr : String), attempt < maxr →
      genLoop cands prompt sys maxr lastErr attempt = Except.ok (localGenerate prompt) := by
  have key : ∀ (k attempt : ℕ), maxr - attempt ≤ k → attempt < maxr → ∀ lastErr,
      genLoop cands prompt sys maxr lastErr attempt = Except.ok (localGenerate prompt) := by
    intro k
    induction k with
    | zero => intro attempt hk hlt; omega
    | succ k ih =>
        intro attempt hk hlt lastErr
        unfold genLoop
        rw [dif_neg (by omega : ¬ maxr ≤ attempt)]
        have hlen : 0 < cands.length := List.length_pos.mpr hne
        have hmod : attempt % cands.length < cands.length := Nat.mod_lt _ hlen
        have hp : cands.get? (attempt % cands.length) = some (cands.get ⟨_, hmod⟩) :=
          List.get?_eq_get hmod
        rw [hp]
        have hpm : cands.get ⟨attempt % cands.length, hmod⟩ ∈ cands :=
          List.get_mem cands _ hmod
        obtain ⟨hgen, hname⟩ := hfailc _ hpm
        obtain ⟨e, he⟩ := hgen attempt
        simp only [he]
        by_cases hl : attempt = maxr - 1
        · rw [if_pos ⟨hl, hname⟩]
        · rw [if_neg (by rintro ⟨h1, _⟩; exact hl h1)]
          exact ih (attempt + 1) (by omega) (by omega) e
  intro attempt lastErr hlt
  exact key (maxr - attempt) attempt (le_refl _) hlt lastErr

/-- The zero-candidates loop: the substituted local provider succeeds on the
very first attempt. -/
lemma genLoop_local_first (prompt : String) (sys : Option String)
    (maxr : ℕ) (lastErr : String) (h : 0 < maxr) :
    genLoop [localProvider] prompt sys maxr lastErr 0 = Except.ok (localGenerate prompt) := by
  unfold genLoop
  rw [dif_neg (by omega : ¬ maxr ≤ 0)]
  rfl

/-- C1: when zero backends are usable (the candidate snapshot is empty) or
every candidate fails on every attempt (true backend failures, so no
candidate is the never-failing `local` responder), `LLMManager.generate`
returns the offline responder's text — an `ok` value, never a raised
exception — and that text is non-empty. -/
theorem manager_generate_offline_fallback
    (providers : List MProvider) (prompt : String) (sys : Option String)
    (mr : Option ℕ) (now : ℚ)
    (hfail : ∀ p ∈ providers.filter (fun p => canUse now p.st),
        (∀ i, ∃ e, p.gen i prompt sys = Except.error e) ∧ p.name ≠ "local") :
    managerGenerate providers prompt sys mr now = Except.ok (localGenerate prompt) ∧
    localGenerate prompt ≠ "" := by
  refine ⟨?_, localGenerate_ne_empty prompt⟩
  unfold managerGenerate
  by_cases hav : (providers.filter (fun p => canUse now p.st)).isEmpty
  · simp only [hav, if_true]
    apply genLoop_local_first
    cases mr with
    | none => simp
    | some n =>
        cases n with
        | zero => simp
        | succ n => simp
  · simp only [hav, if_false]
    have hne : providers.filter (fun p => canUse now p.st) ≠ [] := by
      intro he
      rw [he] at hav
      exact hav rfl
    apply genLoop_all_fail _ prompt sys _ hne hfail
    have hlen : 0 < (providers.filter (fun p => canUse now p.st)).length :=
      List.length_pos.mpr hne
    cases mr with
    | none => simpa using hlen
    | some n =>
        cases n with
        | zero => simpa using hlen
        | succ n => simp

/-- C1 witness: with no providers configured at all the candidate list is
empty, and `generate` returns the offline responder's non-empty text. -/
theorem manager_generate_offline_fallback_witness :
    managerGenerate [] "hello there" none none 0 = Except.ok (localGenerate "hello there") ∧
    localGenerate "hello there" ≠ "" :=
  manager_generate_offline_fallback [] "hello there" none none 0
    (by intro p hp; simp at hp)

end AgenticAI
